import Mathlib

/-!
Shallow embedding of `src/splitter.py` (function `split_audio`, lines 10-67)
from the repository tomups/audiosplitter, together with theorems settling the
frozen claims about the specification.

Modelling choices:
* Python numeric values (`duration` from ffprobe, window start/end times,
  progress percentages) are modelled as exact rationals `ℚ`; the chunk length
  in minutes is an `ℤ` as in the source (`int` from the GUI entry).
* The external world (the ffprobe call, each ffmpeg call, the cancellation
  flag, presence of the progress callback) is an explicit environment `Env`.
* The observable behaviour of a run is its result value together with the
  ordered list of emitted `Effect`s (external process calls, progress
  callback invocations, and - as vocabulary that the code never uses -
  filesystem directory creation and file removal).
-/

namespace AudioSplitter

/-- Truncating conversion of a rational to an integer, the behaviour of the
Python builtin `int(...)` applied to a float: rounding toward zero. -/
def pyInt (q : ℚ) : ℤ := if 0 ≤ q then ⌊q⌋ else ⌈q⌉

/-- Zero-padding of a natural number to width 3, the Python format specifier
`:03d` used in the f-string on line 44 of `src/splitter.py` (wider numbers are
printed in full). -/
def pad3 (n : Nat) : String :=
  let s := toString n
  if s.length < 3 then String.mk (List.replicate (3 - s.length) '0') ++ s else s

/-- `os.path.basename`: the portion of a path after the last `'/'`. -/
def basename (p : String) : String :=
  String.mk (p.toList.foldl (fun acc c => if c = '/' then [] else acc ++ [c]) [])

/-- Index of the last occurrence of a character in a list, if any. -/
def lastIdxOf (c : Char) : List Char → Option Nat
  | [] => none
  | x :: xs =>
    match lastIdxOf c xs with
    | some j => some (j + 1)
    | none => if x = c then some 0 else none

/-- The root part of `os.path.splitext` applied to a string without path
separators (the code applies it to a basename): everything before the last
dot, unless all characters before that dot are themselves dots (so dotfiles
like `".bashrc"` keep their name). -/
def splitextRoot (s : String) : String :=
  let cs := s.toList
  match lastIdxOf '.' cs with
  | none => s
  | some d => if (cs.take d).all (fun c => c = '.') then s else String.mk (cs.take d)

/-- `os.path.join a b` for POSIX paths, as used on line 46 of the source. -/
def pyJoin (a b : String) : String :=
  if b.startsWith "/" then b
  else if a = "" then b
  else if a.endsWith "/" then a ++ b
  else a ++ "/" ++ b

/-- One argument of an external command line: either a literal string, or a
numeric value passed via Python `str(...)` (kept symbolic as the exact
rational, since the source passes the value at full precision). -/
inductive Arg where
  | s (v : String)
  | q (v : ℚ)
  deriving DecidableEq, Repr

/-- An observable effect of a run of `split_audio`: the ffprobe call, an
ffmpeg call, a progress-callback invocation, or - vocabulary only, so that
their absence can be stated - directory creation and file removal. The source
never performs the last two. -/
inductive Effect where
  | probeCall (cmd : List Arg)
  | transcodeCall (cmd : List Arg)
  | emitProgress (value : ℚ)
  | fsCreateDir (path : String)
  | fsRemove (path : String)
  deriving DecidableEq, Repr

/-- What the external ffprobe invocation produces: the call itself can fail
(cannot start, or non-zero exit - `subprocess.check_output` raises), or it
yields standard output whose stripped text either parses as a float
(`some d`, the parsed value) or does not (`none`, so Python `float(...)`
raises `ValueError`). -/
inductive ProbeOutcome where
  | callFailed
  | output (parsed : Option ℚ)
  deriving DecidableEq, Repr

/-- Why a probe fails. -/
inductive ProbeFail where
  | callFailed
  | parseFailed
  deriving DecidableEq, Repr

/-- The duration probe of `split_audio` (lines 30-31 of the source):
`float(subprocess.check_output(duration_cmd).decode('utf-8').strip())`.
It propagates a failure of the external call, fails on unparseable output,
and otherwise returns the parsed value unchanged - the source applies no
sign check to the parsed number. -/
def probeDuration : ProbeOutcome → Except ProbeFail ℚ
  | .callFailed => .error .callFailed
  | .output none => .error .parseFailed
  | .output (some d) => .ok d

/-- Modelled from the spec (section 4.1): the probe contract as the spec words
it - it also rejects output that parses as a negative number. This definition
follows the spec text, for comparison with `probeDuration`, which is the
code. -/
def probeDurationSpec : ProbeOutcome → Except ProbeFail ℚ
  | .callFailed => .error .callFailed
  | .output none => .error .parseFailed
  | .output (some d) => if d < 0 then .error .parseFailed else .ok d

/-- The caller-supplied request, mirroring the parameters of `split_audio`
(line 10 of the source) with their Python defaults. -/
structure SplitRequest where
  input_file : String
  chunk_length_minutes : ℤ
  output_format : String := "mp3"
  normalize : Bool := false
  output_folder : Option String := none

/-- The environment a run executes in: the outcome of the ffprobe call,
whether the ffmpeg call for window `i` succeeds, the first check index at
which the cancellation event is observed set (`none`: never, which also
covers `cancel_event=None`), and whether a progress callback was supplied. -/
structure Env where
  probe : ProbeOutcome
  transcodeOk : Nat → Bool
  cancel : Option Nat
  hasCallback : Bool

/-- The result of a run. The source returns `True` both on full completion
and on cancellation (lines 40 and 61); exceptions escape otherwise, tagged
here by their site: a failed probe call, a `ValueError` from `float`, a
`ZeroDivisionError` from `duration / chunk_length_seconds`, or a failed
ffmpeg call at a given window. -/
inductive SplitResult where
  | ok (ret : Bool)
  | probeError
  | parseError
  | zeroDivError
  | transcodeError (window : Nat)
  deriving DecidableEq, Repr

/-- The ffprobe command line of line 30 of the source. -/
def probeCmd (input_file : String) : List Arg :=
  [.s "ffprobe", .s "-i", .s input_file, .s "-show_entries", .s "format=duration",
   .s "-v", .s "quiet", .s "-of", .s "csv=p=0"]

/-- Start offset of window `i`: `start_time = i * chunk_length_seconds`
(line 42 of the source). -/
def windowStart (L : ℚ) (i : Nat) : ℚ := (i : ℚ) * L

/-- End offset of window `i`:
`end_time = min((i + 1) * chunk_length_seconds, duration)` (line 43). -/
def windowEnd (L D : ℚ) (i : Nat) : ℚ := min (((i : ℚ) + 1) * L) D

/-- `num_chunks = int(duration / chunk_length_seconds) + 1` (line 33). -/
def numChunks (D L : ℚ) : ℤ := pyInt (D / L) + 1

/-- The output filename of line 44:
`f"{i+1:03d}_{original_filename}.{output_format}"`, where
`original_filename = os.path.splitext(os.path.basename(input_file))[0]`
(line 35). -/
def outputFilename (req : SplitRequest) (i : Nat) : String :=
  pad3 (i + 1) ++ "_" ++ splitextRoot (basename req.input_file) ++ "." ++ req.output_format

/-- Lines 45-46: `if output_folder: output_file = os.path.join(output_folder,
output_file)`. An empty string is falsy in Python, so it behaves like no
folder. The source never creates the folder. -/
def outputPath (req : SplitRequest) (i : Nat) : String :=
  match req.output_folder with
  | some f => if f = "" then outputFilename req i else pyJoin f (outputFilename req i)
  | none => outputFilename req i

/-- The ffmpeg command of lines 48-53: `-ss`/`-to` carry the absolute start
and end offsets at full precision; when `normalize` is set a `speechnorm`
audio filter is appended; the audio codec is the literal `libmp3lame`
regardless of the requested output format. -/
def ffmpegCmd (req : SplitRequest) (start stop : ℚ) (out : String) : List Arg :=
  [.s "ffmpeg", .s "-y", .s "-i", .s req.input_file, .s "-ss", .q start, .s "-to", .q stop]
    ++ (if req.normalize then [.s "-filter:a", .s "speechnorm=e=12.5:r=0.0001:l=1"] else [])
    ++ [.s "-c:a", .s "libmp3lame", .s out]

/-- Whether `cancel_event and cancel_event.is_set()` is true at the check
performed before window `i` (line 39): the event, once set, stays set. -/
def cancelObserved (cancel : Option Nat) (i : Nat) : Bool :=
  match cancel with
  | none => false
  | some k => k ≤ i

/-- The effects of one successfully executed window `j`: the ffmpeg call
(line 55), then - when a callback was supplied - the progress emission
`(j + 1) / num_chunks * 100` (lines 57-59). -/
def windowTrace (req : SplitRequest) (env : Env) (L D : ℚ) (N : Nat) (j : Nat) : List Effect :=
  Effect.transcodeCall (ffmpegCmd req (windowStart L j) (windowEnd L D j) (outputPath req j)) ::
    (if env.hasCallback then [Effect.emitProgress (((j : ℚ) + 1) / (N : ℚ) * 100)] else [])

/-- The `for i in range(num_chunks)` loop of lines 38-59, by structural
recursion on the number of remaining iterations: check cancellation, run
ffmpeg for the current window (propagating its failure as the raised
`CalledProcessError`), emit progress, continue. -/
def splitLoop (req : SplitRequest) (env : Env) (L D : ℚ) (N : Nat) :
    Nat → Nat → SplitResult × List Effect
  | _, 0 => (.ok true, [])
  | i, r + 1 =>
    if cancelObserved env.cancel i then (.ok true, [])
    else if env.transcodeOk i then
      let rest := splitLoop req env L D N (i + 1) r
      (rest.1, windowTrace req env L D N i ++ rest.2)
    else
      (.transcodeError i,
        [Effect.transcodeCall (ffmpegCmd req (windowStart L i) (windowEnd L D i) (outputPath req i))])

/-- The whole of `split_audio` (lines 26-61): compute the chunk length in
seconds, probe the duration (the first and unconditional external call),
fail on unparseable output, fail with `ZeroDivisionError` when the chunk
length is zero, then run the window loop. -/
def split_audio (req : SplitRequest) (env : Env) : SplitResult × List Effect :=
  let L : ℚ := (req.chunk_length_minutes : ℚ) * 60
  let pe := Effect.probeCall (probeCmd req.input_file)
  match probeDuration env.probe with
  | .error .callFailed => (.probeError, [pe])
  | .error .parseFailed => (.parseError, [pe])
  | .ok D =>
    if L = 0 then (.zeroDivError, [pe])
    else
      let N := (numChunks D L).toNat
      let r := splitLoop req env L D N 0 N
      (r.1, pe :: r.2)

/-- The progress values among a trace's effects, in order. -/
def progressValues (t : List Effect) : List ℚ :=
  t.filterMap fun e => match e with | .emitProgress p => some p | _ => none

/-- The command lines of the ffmpeg calls among a trace's effects, in order. -/
def transcodeCmds (t : List Effect) : List (List Arg) :=
  t.filterMap fun e => match e with | .transcodeCall c => some c | _ => none

/-- The directory-creation effects among a trace's effects. -/
def dirEffects (t : List Effect) : List Effect :=
  t.filter fun e => match e with | .fsCreateDir _ => true | _ => false

/-- The file-removal effects among a trace's effects. -/
def rmEffects (t : List Effect) : List Effect :=
  t.filter fun e => match e with | .fsRemove _ => true | _ => false

/-- The element directly after the first occurrence of a given literal flag
in a command line (used to read off the codec after `-c:a`). -/
def argAfter (flag : String) : List Arg → Option Arg
  | [] => none
  | x :: rest => if x = Arg.s flag then rest.head? else argAfter flag rest

/-! ### Helper lemmas -/

lemma floor_div_nonneg {D L : ℚ} (hD : 0 ≤ D) (hL : 0 < L) : 0 ≤ ⌊D / L⌋ :=
  Int.floor_nonneg.mpr (div_nonneg hD hL.le)

lemma numChunks_eq {D L : ℚ} (hD : 0 ≤ D) (hL : 0 < L) : numChunks D L = ⌊D / L⌋ + 1 := by
  unfold numChunks pyInt
  rw [if_pos (div_nonneg hD hL.le)]

lemma numChunks_toNat {D L : ℚ} (hD : 0 ≤ D) (hL : 0 < L) :
    ((numChunks D L).toNat : ℤ) = ⌊D / L⌋ + 1 := by
  rw [numChunks_eq hD hL]
  have := floor_div_nonneg hD hL
  omega

lemma numChunks_pos {D L : ℚ} (hD : 0 ≤ D) (hL : 0 < L) : 0 < (numChunks D L).toNat := by
  have := numChunks_toNat hD hL
  have := floor_div_nonneg hD hL
  omega

lemma splitLoop_run_ok (req : SplitRequest) (env : Env) (L D : ℚ) (N : Nat)
    (hc : env.cancel = none) :
    ∀ r i, (∀ t, t < r → env.transcodeOk (i + t) = true) →
      splitLoop req env L D N i r =
        (.ok true, ((List.range r).map fun t => windowTrace req env L D N (i + t)).flatten) := by
  intro r
  induction r with
  | zero => intro i _; simp [splitLoop]
  | succ r ih =>
    intro i h
    have h0 : env.transcodeOk i = true := by simpa using h 0 (Nat.succ_pos r)
    have hrest := ih (i + 1) fun t ht => by
      have := h (t + 1) (Nat.succ_lt_succ ht)
      simpa [Nat.add_comm, Nat.add_assoc, Nat.add_left_comm] using this
    rw [List.range_succ_eq_map]
    simp only [splitLoop, hc, cancelObserved, h0, if_true, hrest, List.map_cons,
      List.map_map, List.flatten_cons, Nat.add_zero, if_false, Bool.false_eq_true]
    refine congrArg _ (congrArg _ (congrArg _ ?_))
    apply List.map_congr_left
    intro t _
    simp only [Function.comp_apply]
    congr 1
    omega

lemma splitLoop_run_cancelled (req : SplitRequest) (env : Env) (L D : ℚ) (N : Nat) (k : Nat)
    (hc : env.cancel = some k) :
    ∀ r i, i ≤ k → k < i + r → (∀ t, i + t < k → env.transcodeOk (i + t) = true) →
      splitLoop req env L D N i r =
        (.ok true, ((List.range (k - i)).map fun t => windowTrace req env L D N (i + t)).flatten) := by
  intro r
  induction r with
  | zero => intro i h1 h2 _; omega
  | succ r ih =>
    intro i h1 h2 h
    by_cases hik : i = k
    · subst hik
      simp [splitLoop, hc, cancelObserved]
    · have hlt : i < k := lt_of_le_of_ne h1 hik
      have h0 : env.transcodeOk i = true := by simpa using h 0 (by omega)
      have hrest := ih (i + 1) (by omega) (by omega) fun t ht => by
        have := h (t + 1) (by omega)
        simpa [Nat.add_comm, Nat.add_assoc, Nat.add_left_comm] using this
      have hobs : cancelObserved env.cancel i = false := by
        simp [cancelObserved, hc]
        omega
      have hki : k - i = (k - (i + 1)) + 1 := by omega
      have hmap : (List.range (k - (i + 1))).map (fun t => windowTrace req env L D N (i + 1 + t))
          = (List.range (k - (i + 1))).map ((fun t => windowTrace req env L D N (i + t)) ∘ Nat.succ) := by
        apply List.map_congr_left
        intro t _
        simp only [Function.comp_apply]
        congr 1
        omega
      rw [hki, List.range_succ_eq_map]
      simp only [splitLoop, hobs, h0, if_true, hrest, List.map_cons,
        List.map_map, List.flatten_cons, Nat.add_zero, if_false, Bool.false_eq_true]
      rw [hmap]

lemma splitLoop_run_failed (req : SplitRequest) (env : Env) (L D : ℚ) (N : Nat) (j : Nat)
    (hc : env.cancel = none) (hj : env.transcodeOk j = false) :
    ∀ r i, i ≤ j → j < i + r → (∀ t, i + t < j → env.transcodeOk (i + t) = true) →
      splitLoop req env L D N i r =
        (.transcodeError j,
          ((List.range (j - i)).map fun t => windowTrace req env L D N (i + t)).flatten
            ++ [Effect.transcodeCall
                  (ffmpegCmd req (windowStart L j) (windowEnd L D j) (outputPath req j))]) := by
  intro r
  induction r with
  | zero => intro i h1 h2 _; omega
  | succ r ih =>
    intro i h1 h2 h
    by_cases hij : i = j
    · subst hij
      simp [splitLoop, hc, cancelObserved, hj]
    · have hlt : i < j := lt_of_le_of_ne h1 hij
      have h0 : env.transcodeOk i = true := by simpa using h 0 (by omega)
      have hrest := ih (i + 1) (by omega) (by omega) fun t ht => by
        have := h (t + 1) (by omega)
        simpa [Nat.add_comm, Nat.add_assoc, Nat.add_left_comm] using this
      have hji : j - i = (j - (i + 1)) + 1 := by omega
      have hmap : (List.range (j - (i + 1))).map (fun t => windowTrace req env L D N (i + 1 + t))
          = (List.range (j - (i + 1))).map ((fun t => windowTrace req env L D N (i + t)) ∘ Nat.succ) := by
        apply List.map_congr_left
        intro t _
        simp only [Function.comp_apply]
        congr 1
        omega
      rw [hji, List.range_succ_eq_map]
      simp only [splitLoop, hc, cancelObserved, h0, if_true, hrest, List.map_cons,
        List.map_map, List.flatten_cons, Nat.add_zero, if_false, Bool.false_eq_true,
        List.cons_append, List.append_assoc]
      rw [hmap]

lemma progressValues_append (a b : List Effect) :
    progressValues (a ++ b) = progressValues a ++ progressValues b :=
  List.filterMap_append a b _

lemma transcodeCmds_append (a b : List Effect) :
    transcodeCmds (a ++ b) = transcodeCmds a ++ transcodeCmds b :=
  List.filterMap_append a b _

lemma progressValues_windowTrace (req : SplitRequest) (env : Env) (L D : ℚ) (N j : Nat) :
    progressValues (windowTrace req env L D N j)
      = if env.hasCallback then [((j : ℚ) + 1) / (N : ℚ) * 100] else [] := by
  cases h : env.hasCallback <;> simp [windowTrace, progressValues, h]

lemma transcodeCmds_windowTrace (req : SplitRequest) (env : Env) (L D : ℚ) (N j : Nat) :
    transcodeCmds (windowTrace req env L D N j)
      = [ffmpegCmd req (windowStart L j) (windowEnd L D j) (outputPath req j)] := by
  cases h : env.hasCallback <;> simp [windowTrace, transcodeCmds, h]

lemma progressValues_flatten (req : SplitRequest) (env : Env) (L D : ℚ) (N : Nat)
    (hcb : env.hasCallback = true) :
    ∀ l : List Nat,
      progressValues ((l.map fun t => windowTrace req env L D N t).flatten)
        = l.map fun t : ℕ => ((t : ℚ) + 1) / (N : ℚ) * 100 := by
  intro l
  induction l with
  | nil => simp [progressValues]
  | cons x xs ih =>
    simp only [List.map_cons, List.flatten_cons, progressValues_append, ih,
      progressValues_windowTrace, hcb, if_true]
    simp

lemma transcodeCmds_flatten (req : SplitRequest) (env : Env) (L D : ℚ) (N : Nat) :
    ∀ l : List Nat,
      transcodeCmds ((l.map fun t => windowTrace req env L D N t).flatten)
        = l.map fun t => ffmpegCmd req (windowStart L t) (windowEnd L D t) (outputPath req t) := by
  intro l
  induction l with
  | nil => simp [transcodeCmds]
  | cons x xs ih =>
    simp only [List.map_cons, List.flatten_cons, transcodeCmds_append, ih,
      transcodeCmds_windowTrace]
    simp

lemma nat_lt_numChunks_iff {D L : ℚ} (hD : 0 ≤ D) (hL : 0 < L) (i : Nat) :
    i < (numChunks D L).toNat ↔ (i : ℤ) ≤ ⌊D / L⌋ := by
  have h1 := numChunks_toNat hD hL
  omega

lemma mul_le_of_le_floor {D L : ℚ} (hL : 0 < L) {i : Nat} (h : (i : ℤ) ≤ ⌊D / L⌋) :
    (i : ℚ) * L ≤ D := by
  have h2 : ((i : ℤ) : ℚ) ≤ D / L := le_trans (by exact_mod_cast h) (Int.floor_le _)
  rw [le_div_iff₀ hL] at h2
  exact_mod_cast h2

lemma lt_succ_floor_mul {D L : ℚ} (hL : 0 < L) : D < ((⌊D / L⌋ : ℚ) + 1) * L := by
  have h := Int.lt_floor_add_one (D / L)
  rw [div_lt_iff₀ hL] at h
  exact h

/-- C1: for every probed total duration `D > 0` and chunk length `L > 0`
seconds, the split plan has `num_chunks = ⌊D / L⌋ + 1` windows, window `i`
runs from `i * L` to `min ((i + 1) * L) D`, consecutive windows are
contiguous, all windows are pairwise disjoint, their union is exactly
`[0, D)`, and the last window ends exactly at `D`. -/
theorem C1_window_plan (D L : ℚ) (hD : 0 < D) (hL : 0 < L) :
    numChunks D L = ⌊D / L⌋ + 1 ∧
    (∀ i : Nat, windowStart L i = (i : ℚ) * L ∧ windowEnd L D i = min (((i : ℚ) + 1) * L) D) ∧
    (∀ i : Nat, i + 1 < (numChunks D L).toNat → windowEnd L D i = windowStart L (i + 1)) ∧
    (∀ i j : Nat, i < j → j < (numChunks D L).toNat →
      Disjoint (Set.Ico (windowStart L i) (windowEnd L D i))
        (Set.Ico (windowStart L j) (windowEnd L D j))) ∧
    (⋃ i ∈ Finset.range (numChunks D L).toNat,
      Set.Ico (windowStart L i) (windowEnd L D i)) = Set.Ico 0 D ∧
    windowEnd L D ((numChunks D L).toNat - 1) = D := by
  have hD0 : 0 ≤ D := hD.le
  have hN := numChunks_toNat hD0 hL
  have hfl := floor_div_nonneg hD0 hL
  refine ⟨numChunks_eq hD0 hL, fun i => ⟨rfl, rfl⟩, ?_, ?_, ?_, ?_⟩
  · -- contiguity
    intro i hi
    have h1 : ((i + 1 : Nat) : ℤ) ≤ ⌊D / L⌋ := by
      rw [← nat_lt_numChunks_iff hD0 hL]
      omega
    have h2 : ((i : ℚ) + 1) * L ≤ D := by
      have := mul_le_of_le_floor hL h1
      push_cast at this
      linarith
    unfold windowEnd windowStart
    rw [min_eq_left h2]
    push_cast
    ring
  · -- pairwise disjointness
    intro i j hij _
    rw [Set.Ico_disjoint_Ico]
    have h1 : windowEnd L D i ≤ windowStart L j := by
      unfold windowEnd windowStart
      have h2 : ((i : ℚ) + 1) * L ≤ (j : ℚ) * L := by
        have : ((i : ℚ) + 1) ≤ (j : ℚ) := by exact_mod_cast hij
        exact mul_le_mul_of_nonneg_right this hL.le
      exact le_trans (min_le_left _ _) h2
    exact le_trans (min_le_of_left_le h1) (le_max_of_le_right le_rfl)
  · -- the union covers exactly [0, D)
    ext x
    simp only [Set.mem_iUnion, Finset.mem_range, Set.mem_Ico, exists_prop]
    constructor
    · rintro ⟨i, _, h1, h2⟩
      have h0 : (0 : ℚ) ≤ windowStart L i := mul_nonneg (Nat.cast_nonneg i) hL.le
      exact ⟨le_trans h0 h1, lt_of_lt_of_le h2 (min_le_right _ _)⟩
    · rintro ⟨h0, hxD⟩
      have hx0 : 0 ≤ x / L := div_nonneg h0 hL.le
      have hfx : 0 ≤ ⌊x / L⌋ := Int.floor_nonneg.mpr hx0
      refine ⟨(⌊x / L⌋).toNat, ?_, ?_, ?_⟩
      · rw [nat_lt_numChunks_iff hD0 hL]
        have hmono : ⌊x / L⌋ ≤ ⌊D / L⌋ :=
          Int.floor_mono ((div_le_div_iff_of_pos_right hL).mpr hxD.le)
        omega
      · unfold windowStart
        have h1 : ((⌊x / L⌋ : ℚ)) ≤ x / L := Int.floor_le _
        rw [le_div_iff₀ hL] at h1
        have hcast : (((⌊x / L⌋).toNat : ℕ) : ℚ) = ((⌊x / L⌋ : ℤ) : ℚ) := by
          exact_mod_cast congrArg (fun z : ℤ => (z : ℚ)) (Int.toNat_of_nonneg hfx)
        rw [hcast]
        exact h1
      · unfold windowEnd
        refine lt_min ?_ hxD
        have h1 : x / L < (⌊x / L⌋ : ℚ) + 1 := Int.lt_floor_add_one _
        rw [div_lt_iff₀ hL] at h1
        have hcast : (((⌊x / L⌋).toNat : ℕ) : ℚ) = ((⌊x / L⌋ : ℤ) : ℚ) := by
          exact_mod_cast congrArg (fun z : ℤ => (z : ℚ)) (Int.toNat_of_nonneg hfx)
        rw [hcast]
        exact h1
  · -- the last window ends exactly at D
    have hidx : ((numChunks D L).toNat - 1 : Nat) = (⌊D / L⌋).toNat := by omega
    rw [hidx]
    unfold windowEnd
    refine min_eq_right ?_
    have hcast : (((⌊D / L⌋).toNat : ℕ) : ℚ) = ((⌊D / L⌋ : ℤ) : ℚ) := by
      exact_mod_cast congrArg (fun z : ℤ => (z : ℚ)) (Int.toNat_of_nonneg hfl)
    rw [hcast]
    exact (lt_succ_floor_mul hL).le

/-- Witness for C1 at the spec's own example `D = 1500`, `L = 600`
(three windows `[0,600), [600,1200), [1200,1500)`). -/
theorem C1_window_plan_witness :
    (0 : ℚ) < 1500 ∧ (0 : ℚ) < 600 ∧
    numChunks 1500 600 = 3 ∧ windowEnd 600 1500 ((numChunks 1500 600).toNat - 1) = 1500 :=
  ⟨by norm_num, by norm_num,
    by
      have h := (C1_window_plan 1500 600 (by norm_num) (by norm_num)).1
      rw [h]
      norm_num [Int.floor_eq_iff]
    ,
    ((C1_window_plan 1500 600 (by norm_num) (by norm_num)).2.2.2.2).2⟩

/-- C9 (amended): for every `D > 0` and `L > 0`, every computed window has
start offset `≥ 0`, end offset `≤ D`, and end offset `≥` start offset; the
strict inequality `end > start` holds for every window except possibly the
last, and holds for all windows whenever `D` is not an exact integer multiple
of `L`. When `D` is an exact multiple of `L` the last window is the
zero-length `[D, D)`, so the claimed strict invariant fails there. -/
theorem C9_window_invariant (D L : ℚ) (hD : 0 < D) (hL : 0 < L) :
    (∀ i : Nat, i < (numChunks D L).toNat →
      0 ≤ windowStart L i ∧ windowEnd L D i ≤ D ∧ windowStart L i ≤ windowEnd L D i) ∧
    (∀ i : Nat, i + 1 < (numChunks D L).toNat → windowStart L i < windowEnd L D i) ∧
    ((¬ ∃ k : ℤ, D = (k : ℚ) * L) →
      ∀ i : Nat, i < (numChunks D L).toNat → windowStart L i < windowEnd L D i) := by
  have hD0 : 0 ≤ D := hD.le
  have hN := numChunks_toNat hD0 hL
  have hstrict : ∀ i : Nat, i + 1 < (numChunks D L).toNat → windowStart L i < windowEnd L D i := by
    intro i hi
    have h1 : ((i + 1 : Nat) : ℤ) ≤ ⌊D / L⌋ := by
      rw [← nat_lt_numChunks_iff hD0 hL]
      omega
    have h2 : ((i : ℚ) + 1) * L ≤ D := by
      have := mul_le_of_le_floor hL h1
      push_cast at this
      linarith
    have h3 : (i : ℚ) * L < ((i : ℚ) + 1) * L := by nlinarith
    unfold windowStart windowEnd
    exact lt_min h3 (lt_of_lt_of_le h3 h2)
  refine ⟨?_, hstrict, ?_⟩
  · intro i hi
    have h1 : (i : ℤ) ≤ ⌊D / L⌋ := (nat_lt_numChunks_iff hD0 hL i).mp hi
    have h2 : (i : ℚ) * L ≤ D := mul_le_of_le_floor hL h1
    have h3 : (i : ℚ) * L ≤ ((i : ℚ) + 1) * L := by nlinarith [(Nat.cast_nonneg i : (0 : ℚ) ≤ (i : ℚ))]
    exact ⟨mul_nonneg (Nat.cast_nonneg i) hL.le, min_le_right _ _,
      le_min h3 h2⟩
  · intro hnm i hi
    by_cases hlast : i + 1 < (numChunks D L).toNat
    · exact hstrict i hlast
    · have hieq : (i : ℤ) = ⌊D / L⌋ := by
        have := (nat_lt_numChunks_iff hD0 hL i).mp hi
        have hfl := floor_div_nonneg hD0 hL
        omega
      have h2 : (i : ℚ) * L ≤ D := mul_le_of_le_floor hL (le_of_eq hieq)
      have h2' : (i : ℚ) * L ≠ D := by
        intro heq
        exact hnm ⟨(i : ℤ), by push_cast; linarith⟩
      have h3 : (i : ℚ) * L < ((i : ℚ) + 1) * L := by nlinarith [(Nat.cast_nonneg i : (0 : ℚ) ≤ (i : ℚ))]
      unfold windowStart windowEnd
      exact lt_min h3 (lt_of_le_of_ne h2 h2')

/-- Witness for C9's amended theorem at the exact-multiple input `D = 1200`,
`L = 600`: the first window still satisfies the invariant strictly, and every
window of the plan satisfies the non-strict invariant. -/
theorem C9_window_invariant_witness :
    (0 ≤ windowStart 600 0 ∧ windowEnd 600 1200 0 ≤ 1200 ∧
      windowStart 600 0 ≤ windowEnd 600 1200 0) ∧
    windowStart 600 0 < windowEnd 600 1200 0 := by
  have h := C9_window_invariant 1200 600 (by norm_num) (by norm_num)
  have hN : (numChunks 1200 600).toNat = 3 := by
    rw [numChunks_eq (by norm_num) (by norm_num)]
    norm_num
    decide
  exact ⟨h.1 0 (by rw [hN]; norm_num), h.2.1 0 (by rw [hN]; norm_num)⟩

/-- C9 counterexample: at `D = 1200`, `L = 600` - an exact integer multiple -
the plan has three windows and the last one is the zero-length `[1200, 1200)`,
so the claimed invariant `end > start` for every window is false. -/
theorem C9_counterexample :
    ¬ (∀ i : Nat, i < (numChunks 1200 600).toNat →
        windowStart 600 i < windowEnd 600 1200 i) := by
  intro h
  have h3 : (numChunks 1200 600).toNat = 3 := by
    rw [numChunks_eq (by norm_num) (by norm_num)]
    norm_num
    decide
  have h2 := h 2 (by rw [h3]; norm_num)
  unfold windowStart windowEnd at h2
  norm_num at h2

lemma split_audio_eq (req : SplitRequest) (env : Env) (D : ℚ)
    (hprobe : env.probe = .output (some D))
    (hL : ((req.chunk_length_minutes : ℚ) * 60) ≠ 0) :
    split_audio req env =
      ((splitLoop req env ((req.chunk_length_minutes : ℚ) * 60) D
          ((numChunks D ((req.chunk_length_minutes : ℚ) * 60)).toNat) 0
          ((numChunks D ((req.chunk_length_minutes : ℚ) * 60)).toNat)).1,
        Effect.probeCall (probeCmd req.input_file) ::
          (splitLoop req env ((req.chunk_length_minutes : ℚ) * 60) D
            ((numChunks D ((req.chunk_length_minutes : ℚ) * 60)).toNat) 0
            ((numChunks D ((req.chunk_length_minutes : ℚ) * 60)).toNat)).2) := by
  simp only [split_audio, hprobe, probeDuration]
  rw [if_neg hL]

/-- C10: for `0 ≤ D < L` (chunk length `L > 0`, no cancellation, no failure),
the run computes exactly one window `[0, D)` - even in the degenerate case
`D = 0` - issues exactly one external transcode call for it, emits the single
progress value `100`, and returns the success value. -/
theorem C10_single_window (req : SplitRequest) (env : Env) (D : ℚ)
    (hprobe : env.probe = .output (some D))
    (hD0 : 0 ≤ D)
    (hm : 1 ≤ req.chunk_length_minutes)
    (hDL : D < (req.chunk_length_minutes : ℚ) * 60)
    (hcan : env.cancel = none)
    (hok : env.transcodeOk 0 = true)
    (hcb : env.hasCallback = true) :
    numChunks D ((req.chunk_length_minutes : ℚ) * 60) = 1 ∧
    split_audio req env =
      (.ok true,
        [Effect.probeCall (probeCmd req.input_file),
         Effect.transcodeCall (ffmpegCmd req 0 D (outputPath req 0)),
         Effect.emitProgress 100]) := by
  have hL : 0 < (req.chunk_length_minutes : ℚ) * 60 := by
    have h1 : (1 : ℚ) ≤ (req.chunk_length_minutes : ℚ) := by exact_mod_cast hm
    linarith
  have hfloor : ⌊D / ((req.chunk_length_minutes : ℚ) * 60)⌋ = 0 := by
    rw [Int.floor_eq_zero_iff]
    exact ⟨div_nonneg hD0 hL.le, (div_lt_one hL).mpr hDL⟩
  have hNC : numChunks D ((req.chunk_length_minutes : ℚ) * 60) = 1 := by
    rw [numChunks_eq hD0 hL, hfloor]
    decide
  have hN1 : (numChunks D ((req.chunk_length_minutes : ℚ) * 60)).toNat = 1 := by
    rw [hNC]
    rfl
  have hsl := splitLoop_run_ok req env ((req.chunk_length_minutes : ℚ) * 60) D 1 hcan 1 0
    (fun t ht => by
      have h0 : t = 0 := by omega
      subst h0
      simpa using hok)
  refine ⟨hNC, ?_⟩
  rw [split_audio_eq req env D hprobe hL.ne', hN1, hsl]
  have hws : windowStart ((req.chunk_length_minutes : ℚ) * 60) 0 = 0 := by
    unfold windowStart
    norm_num
  have hwe : windowEnd ((req.chunk_length_minutes : ℚ) * 60) D 0 = D := by
    unfold windowEnd
    apply min_eq_right
    push_cast
    linarith
  have hr1 : List.range 1 = [0] := rfl
  rw [hr1]
  simp only [List.map_cons, List.map_nil, List.flatten_cons, List.flatten_nil,
    List.append_nil, windowTrace, hcb, if_true, Nat.add_zero, hws, hwe]
  simp

/-- Witness for C10 at the degenerate input `D = 0` with a 10 minute chunk
length: one zero-length window `[0, 0)` is still transcoded and the single
progress value `100` is emitted. -/
theorem C10_single_window_witness :
    numChunks 0 ((((10 : ℤ) : ℚ)) * 60) = 1 ∧
    split_audio
        { input_file := "song.wav", chunk_length_minutes := 10 }
        { probe := .output (some 0), transcodeOk := fun _ => true,
          cancel := none, hasCallback := true } =
      (.ok true,
        [Effect.probeCall (probeCmd "song.wav"),
         Effect.transcodeCall
           (ffmpegCmd { input_file := "song.wav", chunk_length_minutes := 10 } 0 0
             (outputPath { input_file := "song.wav", chunk_length_minutes := 10 } 0)),
         Effect.emitProgress 100]) :=
  C10_single_window
    { input_file := "song.wav", chunk_length_minutes := 10 }
    { probe := .output (some 0), transcodeOk := fun _ => true,
      cancel := none, hasCallback := true } 0
    rfl le_rfl (by norm_num) (by norm_num) rfl rfl rfl

lemma progressValues_probe_cons (c : List Arg) (t : List Effect) :
    progressValues (Effect.probeCall c :: t) = progressValues t := by
  simp [progressValues]

lemma splitLoop_progress_prefix (req : SplitRequest) (env : Env) (L D : ℚ) (N : Nat)
    (hcb : env.hasCallback = true) :
    ∀ r i, ∃ k, k ≤ r ∧
      progressValues (splitLoop req env L D N i r).2
        = (List.range k).map fun t => (((i + t : ℕ) : ℚ) + 1) / (N : ℚ) * 100 := by
  intro r
  induction r with
  | zero => exact fun i => ⟨0, le_rfl, by simp [splitLoop, progressValues]⟩
  | succ r ih =>
    intro i
    by_cases hcan : cancelObserved env.cancel i = true
    · exact ⟨0, Nat.zero_le _, by simp [splitLoop, hcan, progressValues]⟩
    · by_cases hok : env.transcodeOk i = true
      · obtain ⟨k, hk, hpv⟩ := ih (i + 1)
        refine ⟨k + 1, by omega, ?_⟩
        rw [List.range_succ_eq_map]
        simp only [splitLoop, hcan, hok, if_true, if_false, Bool.false_eq_true,
          progressValues_append, progressValues_windowTrace, hcb, hpv,
          List.map_cons, List.map_map, Nat.add_zero, List.singleton_append]
        refine congrArg _ ?_
        apply List.map_congr_left
        intro t _
        simp only [Function.comp_apply]
        congr 2
        push_cast
        ring
      · exact ⟨0, Nat.zero_le _, by simp [splitLoop, hcan, hok, progressValues]⟩

/-- C4: on a run that completes all `N` windows, exactly one progress value is
emitted per window, window `i`'s value is `(i + 1) / N * 100`, the emitted
sequence is strictly increasing and stays within `[0, 100]`, and the final
emitted value is exactly `100`; moreover on any run (arbitrary cancellation
and transcode outcomes) the emitted values form a prefix of that same
sequence, one value per completed window. -/
theorem C4_progress_reporting (req : SplitRequest) (env : Env) (D L : ℚ) (N : Nat)
    (hLdef : L = (req.chunk_length_minutes : ℚ) * 60)
    (hNdef : N = (numChunks D L).toNat)
    (hprobe : env.probe = .output (some D))
    (hD : 0 < D)
    (hm : 1 ≤ req.chunk_length_minutes)
    (hcb : env.hasCallback = true)
    (hcan : env.cancel = none)
    (hok : ∀ j, env.transcodeOk j = true) :
    progressValues (split_audio req env).2
        = (List.range N).map (fun i : ℕ => ((i : ℚ) + 1) / (N : ℚ) * 100) ∧
    (progressValues (split_audio req env).2).length = N ∧
    List.Pairwise (· < ·) (progressValues (split_audio req env).2) ∧
    (∀ p ∈ progressValues (split_audio req env).2, 0 ≤ p ∧ p ≤ 100) ∧
    (progressValues (split_audio req env).2).getLast? = some 100 ∧
    (∀ c2 : Option Nat, ∀ t2 : Nat → Bool, ∃ k, k ≤ N ∧
      progressValues (split_audio req { env with cancel := c2, transcodeOk := t2 }).2
        = (List.range k).map (fun i : ℕ => ((i : ℚ) + 1) / (N : ℚ) * 100)) := by
  have hL : 0 < L := by
    have h1 : (1 : ℚ) ≤ (req.chunk_length_minutes : ℚ) := by exact_mod_cast hm
    rw [hLdef]
    linarith
  have hN0 : 0 < N := hNdef ▸ numChunks_pos hD.le hL
  have hNq : (0 : ℚ) < (N : ℚ) := by exact_mod_cast hN0
  have hmain : progressValues (split_audio req env).2
      = (List.range N).map (fun i : ℕ => ((i : ℚ) + 1) / (N : ℚ) * 100) := by
    rw [hLdef] at hNdef
    rw [split_audio_eq req env D hprobe (hLdef ▸ hL.ne'), ← hNdef,
      splitLoop_run_ok req env _ D N hcan N 0 (fun t _ => hok (0 + t)),
      progressValues_probe_cons]
    have hmz : (List.range N).map (fun t => windowTrace req env ((req.chunk_length_minutes : ℚ) * 60) D N (0 + t))
        = (List.range N).map (fun t => windowTrace req env ((req.chunk_length_minutes : ℚ) * 60) D N t) := by
      apply List.map_congr_left
      intro t _
      rw [Nat.zero_add]
    rw [hmz, progressValues_flatten req env _ D N hcb]
  have hmono : ∀ a b : Nat, a < b →
      ((a : ℚ) + 1) / (N : ℚ) * 100 < ((b : ℚ) + 1) / (N : ℚ) * 100 := by
    intro a b hab
    have h1 : ((a : ℚ) + 1) < ((b : ℚ) + 1) := by
      have : (a : ℚ) < (b : ℚ) := by exact_mod_cast hab
      linarith
    exact mul_lt_mul_of_pos_right ((div_lt_div_iff_of_pos_right hNq).mpr h1) (by norm_num)
  refine ⟨hmain, by rw [hmain]; simp, ?_, ?_, ?_, ?_⟩
  · rw [hmain]
    exact (List.pairwise_lt_range N).map _ fun a b hab => hmono a b hab
  · rw [hmain]
    intro p hp
    obtain ⟨i, hi, rfl⟩ := List.mem_map.mp hp
    rw [List.mem_range] at hi
    constructor
    · positivity
    · have h1 : ((i : ℚ) + 1) / (N : ℚ) ≤ 1 := by
        rw [div_le_one hNq]
        have : (i : ℚ) + 1 ≤ (N : ℚ) := by exact_mod_cast Nat.succ_le_of_lt hi
        exact this
      nlinarith
  · rw [hmain]
    obtain ⟨M, rfl⟩ : ∃ M, N = M + 1 := ⟨N - 1, by omega⟩
    rw [List.range_succ, List.map_append, List.map_cons, List.map_nil,
      List.getLast?_concat]
    have : ((M : ℚ) + 1) / ((M + 1 : ℕ) : ℚ) * 100 = 100 := by
      have hne : ((M + 1 : ℕ) : ℚ) ≠ 0 := by exact_mod_cast (Nat.succ_ne_zero M)
      field_simp
    rw [this]
  · intro c2 t2
    have hprobe2 : ({ env with cancel := c2, transcodeOk := t2 } : Env).probe
        = .output (some D) := hprobe
    have hcb2 : ({ env with cancel := c2, transcodeOk := t2 } : Env).hasCallback = true := hcb
    rw [hLdef] at hNdef
    rw [split_audio_eq req _ D hprobe2 (hLdef ▸ hL.ne'), ← hNdef,
      progressValues_probe_cons]
    obtain ⟨k, hk, hpv⟩ :=
      splitLoop_progress_prefix req { env with cancel := c2, transcodeOk := t2 }
        ((req.chunk_length_minutes : ℚ) * 60) D N hcb2 N 0
    refine ⟨k, hk, ?_⟩
    rw [hpv]
    apply List.map_congr_left
    intro t _
    rw [Nat.zero_add]

/-- Witness for C4 at `D = 1500`, ten-minute chunks (`N = 3`): the emitted
sequence is `[100/3, 200/3, 100]`. -/
theorem C4_progress_reporting_witness :
    progressValues (split_audio { input_file := "song.wav", chunk_length_minutes := 10 }
        { probe := .output (some 1500), transcodeOk := fun _ => true,
          cancel := none, hasCallback := true }).2
      = [100 / 3, 200 / 3, 100] := by
  have h := (C4_progress_reporting { input_file := "song.wav", chunk_length_minutes := 10 }
    { probe := .output (some 1500), transcodeOk := fun _ => true,
      cancel := none, hasCallback := true } 1500 600 3
    (by norm_num)
    (by
      rw [numChunks_eq (by norm_num) (by norm_num)]
      norm_num
      decide)
    rfl (by norm_num) (by norm_num) rfl rfl (fun _ => rfl)).1
  rw [h]
  norm_num [List.range_succ]

lemma transcodeCmds_probe_cons (c : List Arg) (t : List Effect) :
    transcodeCmds (Effect.probeCall c :: t) = transcodeCmds t := by
  simp [transcodeCmds]

lemma rmEffects_append (a b : List Effect) :
    rmEffects (a ++ b) = rmEffects a ++ rmEffects b := by
  simp [rmEffects]

lemma dirEffects_append (a b : List Effect) :
    dirEffects (a ++ b) = dirEffects a ++ dirEffects b := by
  simp [dirEffects]

lemma rmEffects_probe_cons (c : List Arg) (t : List Effect) :
    rmEffects (Effect.probeCall c :: t) = rmEffects t := by
  simp [rmEffects]

lemma dirEffects_probe_cons (c : List Arg) (t : List Effect) :
    dirEffects (Effect.probeCall c :: t) = dirEffects t := by
  simp [dirEffects]

lemma splitLoop_no_fs (req : SplitRequest) (env : Env) (L D : ℚ) (N : Nat) :
    ∀ r i, rmEffects (splitLoop req env L D N i r).2 = []
      ∧ dirEffects (splitLoop req env L D N i r).2 = [] := by
  intro r
  induction r with
  | zero => intro i; simp [splitLoop, rmEffects, dirEffects]
  | succ r ih =>
    intro i
    by_cases hcan : cancelObserved env.cancel i = true
    · simp [splitLoop, hcan, rmEffects, dirEffects]
    · have hcan' : cancelObserved env.cancel i = false := by
        cases h : cancelObserved env.cancel i
        · rfl
        · exact absurd h hcan
      by_cases hok : env.transcodeOk i = true
      · obtain ⟨h1, h2⟩ := ih (i + 1)
        have hsplit : (splitLoop req env L D N i (r + 1)).2
            = windowTrace req env L D N i ++ (splitLoop req env L D N (i + 1) r).2 := by
          simp [splitLoop, hcan', hok]
        rw [hsplit, rmEffects_append, dirEffects_append, h1, h2]
        cases hcb : env.hasCallback <;>
          simp [windowTrace, rmEffects, dirEffects, hcb]
      · have hok' : env.transcodeOk i = false := by
          cases h : env.transcodeOk i
          · rfl
          · exact absurd h hok
        simp [splitLoop, hcan', hok', rmEffects, dirEffects]

lemma split_audio_no_fs (req : SplitRequest) (env : Env) :
    rmEffects (split_audio req env).2 = [] ∧ dirEffects (split_audio req env).2 = [] := by
  obtain ⟨h1, h2⟩ := splitLoop_no_fs req env ((req.chunk_length_minutes : ℚ) * 60)
    (match probeDuration env.probe with | .ok D => D | .error _ => 0)
    ((numChunks (match probeDuration env.probe with | .ok D => D | .error _ => 0)
      ((req.chunk_length_minutes : ℚ) * 60)).toNat)
    ((numChunks (match probeDuration env.probe with | .ok D => D | .error _ => 0)
      ((req.chunk_length_minutes : ℚ) * 60)).toNat) 0
  cases henv : env.probe with
  | callFailed => simp [split_audio, henv, probeDuration, rmEffects, dirEffects]
  | output p =>
    cases p with
    | none => simp [split_audio, henv, probeDuration, rmEffects, dirEffects]
    | some D =>
      rw [henv] at h1 h2
      by_cases hz : ((req.chunk_length_minutes : ℚ) * 60) = 0
      · simp [split_audio, henv, probeDuration, hz, rmEffects, dirEffects]
      · simp only [split_audio, henv, probeDuration, if_neg hz] at h1 h2 ⊢
        refine ⟨?_, ?_⟩
        · rw [rmEffects_probe_cons]
          exact h1
        · rw [dirEffects_probe_cons]
          exact h2

/-- C5: when the external transcode call for window `j` fails (after windows
`0..j-1` succeeded, no cancellation), the run fails with the transcode error
for window `j` immediately: the failing call was issued exactly once (no
retry), no window after `j` is attempted (the ffmpeg calls are exactly those
of windows `0..j`), no progress value is emitted for window `j`, and no
cleanup is performed (no file removal, no directory effects at all). -/
theorem C5_transcode_failure (req : SplitRequest) (env : Env) (D L : ℚ) (N : Nat) (j : Nat)
    (hLdef : L = (req.chunk_length_minutes : ℚ) * 60)
    (hNdef : N = (numChunks D L).toNat)
    (hprobe : env.probe = .output (some D))
    (hD : 0 < D)
    (hm : 1 ≤ req.chunk_length_minutes)
    (hcan : env.cancel = none)
    (hcb : env.hasCallback = true)
    (hj : j < N)
    (hfail : env.transcodeOk j = false)
    (hpre : ∀ t, t < j → env.transcodeOk t = true) :
    (split_audio req env).1 = .transcodeError j ∧
    transcodeCmds (split_audio req env).2
      = (List.range (j + 1)).map
          (fun t => ffmpegCmd req (windowStart L t) (windowEnd L D t) (outputPath req t)) ∧
    progressValues (split_audio req env).2
      = (List.range j).map (fun t : ℕ => ((t : ℚ) + 1) / (N : ℚ) * 100) ∧
    rmEffects (split_audio req env).2 = [] ∧
    dirEffects (split_audio req env).2 = [] := by
  have hL : 0 < L := by
    have h1 : (1 : ℚ) ≤ (req.chunk_length_minutes : ℚ) := by exact_mod_cast hm
    rw [hLdef]
    linarith
  rw [hLdef] at hNdef
  have hrun := splitLoop_run_failed req env ((req.chunk_length_minutes : ℚ) * 60) D N j
    hcan hfail N 0 (Nat.zero_le j) (by omega)
    (fun t ht => hpre (0 + t) (by omega))
  have heq := split_audio_eq req env D hprobe (hLdef ▸ hL.ne')
  rw [← hNdef] at heq
  obtain ⟨hfs1, hfs2⟩ := split_audio_no_fs req env
  have hmz : (List.range (j - 0)).map
        (fun t => windowTrace req env ((req.chunk_length_minutes : ℚ) * 60) D N (0 + t))
      = (List.range j).map (fun t => windowTrace req env ((req.chunk_length_minutes : ℚ) * 60) D N t) := by
    rw [Nat.sub_zero]
    apply List.map_congr_left
    intro t _
    rw [Nat.zero_add]
  refine ⟨?_, ?_, ?_, hfs1, hfs2⟩
  · rw [heq, hrun]
  · rw [heq, hrun, transcodeCmds_probe_cons, transcodeCmds_append, hmz,
      transcodeCmds_flatten, List.range_succ, List.map_append, List.map_cons, List.map_nil]
    rw [hLdef]
    simp [transcodeCmds]
  · rw [heq, hrun, progressValues_probe_cons, progressValues_append, hmz,
      progressValues_flatten req env _ D N hcb]
    simp [progressValues]

/-- Witness for C5: a 45 minute file split in 10 minute chunks (`N = 5`),
where the ffmpeg call for window `2` (the third of five) fails: the run
stops with the transcode error for window `2` and exactly the first two
progress values were emitted. -/
theorem C5_transcode_failure_witness :
    (split_audio { input_file := "song.wav", chunk_length_minutes := 10 }
        { probe := .output (some 2700), transcodeOk := fun t => decide (t < 2),
          cancel := none, hasCallback := true }).1
      = SplitResult.transcodeError 2 ∧
    progressValues (split_audio { input_file := "song.wav", chunk_length_minutes := 10 }
        { probe := .output (some 2700), transcodeOk := fun t => decide (t < 2),
          cancel := none, hasCallback := true }).2
      = [20, 40] := by
  have hN : (5 : ℕ) = (numChunks 2700 ((((10 : ℤ) : ℚ)) * 60)).toNat := by
    have h1 : numChunks 2700 ((((10 : ℤ) : ℚ)) * 60) = 5 := by
      have h2 : ((((10 : ℤ) : ℚ)) * 60) = 600 := by norm_num
      rw [h2, numChunks_eq (by norm_num) (by norm_num)]
      norm_num [Int.floor_eq_iff]
    rw [h1]
    decide
  have h := C5_transcode_failure { input_file := "song.wav", chunk_length_minutes := 10 }
    { probe := .output (some 2700), transcodeOk := fun t => decide (t < 2),
      cancel := none, hasCallback := true } 2700 ((((10 : ℤ) : ℚ)) * 60) 5 2
    rfl hN rfl (by norm_num) (by norm_num) rfl rfl (by norm_num)
    (by simp)
    (fun t ht => by simp [ht])
  refine ⟨h.1, ?_⟩
  rw [h.2.2.1]
  norm_num [List.range_succ]

/-- C3 (amended): when the cancellation signal is first observed set at the
check before window `k` (with `k` of `N` windows already completed), the
operation issues no further external transcode calls (the ffmpeg calls are
exactly those of windows `0..k-1`), emits no further progress, performs no
cleanup of the `k` files already produced, and the check happens only at
window boundaries. However, the run then returns `True` - the *same* value a
fully successful run returns - so the cancelled outcome is NOT distinct from
the success outcome (it is distinct from the error outcomes, which are raised
exceptions). -/
theorem C3_cancellation (req : SplitRequest) (env : Env) (D L : ℚ) (N k : Nat)
    (hLdef : L = (req.chunk_length_minutes : ℚ) * 60)
    (hNdef : N = (numChunks D L).toNat)
    (hprobe : env.probe = .output (some D))
    (hm : 1 ≤ req.chunk_length_minutes)
    (hcanc : env.cancel = some k)
    (hk : k < N)
    (hpre : ∀ t, t < k → env.transcodeOk t = true)
    (hcb : env.hasCallback = true) :
    (split_audio req env).1 = .ok true ∧
    (split_audio req env).1
      = (split_audio req { env with cancel := none, transcodeOk := fun _ => true }).1 ∧
    transcodeCmds (split_audio req env).2
      = (List.range k).map
          (fun t => ffmpegCmd req (windowStart L t) (windowEnd L D t) (outputPath req t)) ∧
    progressValues (split_audio req env).2
      = (List.range k).map (fun t : ℕ => ((t : ℚ) + 1) / (N : ℚ) * 100) ∧
    rmEffects (split_audio req env).2 = [] ∧
    dirEffects (split_audio req env).2 = [] := by
  have hL : 0 < L := by
    have h1 : (1 : ℚ) ≤ (req.chunk_length_minutes : ℚ) := by exact_mod_cast hm
    rw [hLdef]
    linarith
  rw [hLdef] at hNdef
  have hrun := splitLoop_run_cancelled req env ((req.chunk_length_minutes : ℚ) * 60) D N k
    hcanc N 0 (Nat.zero_le k) (by omega)
    (fun t ht => hpre (0 + t) (by omega))
  have heq := split_audio_eq req env D hprobe (hLdef ▸ hL.ne')
  rw [← hNdef] at heq
  obtain ⟨hfs1, hfs2⟩ := split_audio_no_fs req env
  have hmz : (List.range (k - 0)).map
        (fun t => windowTrace req env ((req.chunk_length_minutes : ℚ) * 60) D N (0 + t))
      = (List.range k).map (fun t => windowTrace req env ((req.chunk_length_minutes : ℚ) * 60) D N t) := by
    rw [Nat.sub_zero]
    apply List.map_congr_left
    intro t _
    rw [Nat.zero_add]
  have hsucc : (split_audio req { env with cancel := none, transcodeOk := fun _ => true }).1
      = .ok true := by
    have hprobe2 : ({ env with cancel := none, transcodeOk := fun _ => true } : Env).probe
        = .output (some D) := hprobe
    have hrun2 := splitLoop_run_ok req { env with cancel := none, transcodeOk := fun _ => true }
      ((req.chunk_length_minutes : ℚ) * 60) D N rfl N 0 (fun t _ => rfl)
    rw [split_audio_eq req _ D hprobe2 (hLdef ▸ hL.ne'), ← hNdef, hrun2]
  refine ⟨?_, ?_, ?_, ?_, hfs1, hfs2⟩
  · rw [heq, hrun]
  · rw [heq, hrun, hsucc]
  · rw [heq, hrun, transcodeCmds_probe_cons, hmz, transcodeCmds_flatten]
    rw [hLdef]
  · rw [heq, hrun, progressValues_probe_cons, hmz,
      progressValues_flatten req env _ D N hcb]

/-- Witness for C3's amended theorem: the spec's scenario - cancellation first
observed after window 2 of 5 completes - returns the success value `True` and
issued exactly two ffmpeg calls. -/
theorem C3_cancellation_witness :
    (split_audio { input_file := "song.wav", chunk_length_minutes := 10 }
        { probe := .output (some 2700), transcodeOk := fun _ => true,
          cancel := some 2, hasCallback := true }).1
      = SplitResult.ok true ∧
    (transcodeCmds (split_audio { input_file := "song.wav", chunk_length_minutes := 10 }
        { probe := .output (some 2700), transcodeOk := fun _ => true,
          cancel := some 2, hasCallback := true }).2).length = 2 := by
  have hN : (5 : ℕ) = (numChunks 2700 ((((10 : ℤ) : ℚ)) * 60)).toNat := by
    have h1 : numChunks 2700 ((((10 : ℤ) : ℚ)) * 60) = 5 := by
      have h2 : ((((10 : ℤ) : ℚ)) * 60) = 600 := by norm_num
      rw [h2, numChunks_eq (by norm_num) (by norm_num)]
      norm_num [Int.floor_eq_iff]
    rw [h1]
    decide
  have h := C3_cancellation { input_file := "song.wav", chunk_length_minutes := 10 }
    { probe := .output (some 2700), transcodeOk := fun _ => true,
      cancel := some 2, hasCallback := true } 2700 ((((10 : ℤ) : ℚ)) * 60) 5 2
    rfl hN rfl (by norm_num) rfl (by norm_num) (fun t _ => rfl) rfl
  refine ⟨h.1, ?_⟩
  rw [h.2.2.1]
  simp

/-- C3 counterexample: the claim says the cancelled outcome is distinct from
the success outcome, but a run cancelled before any window starts returns
exactly the same value (`True`) as an identical run that completes all
windows - `split_audio` cannot distinguish them by its result. -/
theorem C3_counterexample :
    (split_audio { input_file := "song.wav", chunk_length_minutes := 10 }
        { probe := .output (some 1500), transcodeOk := fun _ => true,
          cancel := some 0, hasCallback := true }).1
      = (split_audio { input_file := "song.wav", chunk_length_minutes := 10 }
          { probe := .output (some 1500), transcodeOk := fun _ => true,
            cancel := none, hasCallback := true }).1 ∧
    (split_audio { input_file := "song.wav", chunk_length_minutes := 10 }
        { probe := .output (some 1500), transcodeOk := fun _ => true,
          cancel := some 0, hasCallback := true }).1
      = SplitResult.ok true := by
  have hL : ((((10 : ℤ) : ℚ)) * 60) ≠ 0 := by norm_num
  have hNpos : 0 < (numChunks 1500 ((((10 : ℤ) : ℚ)) * 60)).toNat := by
    have h2 : ((((10 : ℤ) : ℚ)) * 60) = 600 := by norm_num
    rw [h2]
    exact numChunks_pos (by norm_num) (by norm_num)
  have e1 : (split_audio { input_file := "song.wav", chunk_length_minutes := 10 }
      { probe := .output (some 1500), transcodeOk := fun _ => true,
        cancel := some 0, hasCallback := true }).1 = SplitResult.ok true := by
    rw [split_audio_eq _ _ 1500 rfl hL,
      splitLoop_run_cancelled _ _ _ 1500 _ 0 rfl _ 0 le_rfl (by simpa using hNpos)
        (fun t ht => absurd ht (by omega))]
  have e2 : (split_audio { input_file := "song.wav", chunk_length_minutes := 10 }
      { probe := .output (some 1500), transcodeOk := fun _ => true,
        cancel := none, hasCallback := true }).1 = SplitResult.ok true := by
    rw [split_audio_eq _ _ 1500 rfl hL,
      splitLoop_run_ok _ _ _ 1500 _ rfl _ 0 (fun t _ => rfl)]
  exact ⟨e1.trans e2.symm, e1⟩

lemma splitLoop_result_cases (req : SplitRequest) (env : Env) (L D : ℚ) (N : Nat) :
    ∀ r i, (splitLoop req env L D N i r).1 = .ok true
      ∨ ∃ j, (splitLoop req env L D N i r).1 = .transcodeError j := by
  intro r
  induction r with
  | zero => intro i; left; rfl
  | succ r ih =>
    intro i
    by_cases hcan : cancelObserved env.cancel i = true
    · left
      simp [splitLoop, hcan]
    · have hcan' : cancelObserved env.cancel i = false := by
        cases h : cancelObserved env.cancel i
        · rfl
        · exact absurd h hcan
      by_cases hok : env.transcodeOk i = true
      · have hfst : (splitLoop req env L D N i (r + 1)).1
            = (splitLoop req env L D N (i + 1) r).1 := by
          simp [splitLoop, hcan', hok]
        rw [hfst]
        exact ih (i + 1)
      · have hok' : env.transcodeOk i = false := by
          cases h : env.transcodeOk i
          · rfl
          · exact absurd h hok
        right
        exact ⟨i, by simp [splitLoop, hcan', hok']⟩

/-- C2 (amended): the source performs no chunk-length validation and defines
no `InvalidRequestError`; the duration probe is the first external call of
every run, whatever the chunk length. A chunk length of `0` minutes leads to
a `ZeroDivisionError` raised only *after* the probe has been attempted. A
negative chunk length is not rejected at all: the run proceeds past the probe
into the window loop (its result is the success value or a transcode failure,
never a request-validation error), and when the probed duration is positive
and at least one (negated) chunk length, the window count is non-positive, so
the run returns the success value `True` having issued only the probe. -/
theorem C2_no_early_validation (req : SplitRequest) (env : Env) :
    (split_audio req env).2.head? = some (Effect.probeCall (probeCmd req.input_file)) ∧
    (req.chunk_length_minutes = 0 → ∀ D : ℚ, env.probe = .output (some D) →
      (split_audio req env).1 = .zeroDivError) ∧
    (req.chunk_length_minutes < 0 → ∀ D : ℚ, env.probe = .output (some D) →
      (split_audio req env).1 = .ok true
        ∨ ∃ j, (split_audio req env).1 = .transcodeError j) ∧
    (req.chunk_length_minutes < 0 → ∀ D : ℚ, env.probe = .output (some D) → 0 < D →
      -((req.chunk_length_minutes : ℚ) * 60) ≤ D →
      split_audio req env
        = (.ok true, [Effect.probeCall (probeCmd req.input_file)])) := by
  refine ⟨?_, ?_, ?_, ?_⟩
  · cases henv : env.probe with
    | callFailed => simp [split_audio, henv, probeDuration]
    | output p =>
      cases p with
      | none => simp [split_audio, henv, probeDuration]
      | some D =>
        by_cases hz : ((req.chunk_length_minutes : ℚ) * 60) = 0
        · simp [split_audio, henv, probeDuration, hz]
        · simp [split_audio, henv, probeDuration, hz]
  · intro hm D hprobe
    have hz : ((req.chunk_length_minutes : ℚ) * 60) = 0 := by
      rw [hm]
      norm_num
    simp [split_audio, hprobe, probeDuration, hz]
  · intro hneg D hprobe
    have hmq : ((req.chunk_length_minutes : ℤ) : ℚ) < 0 := by exact_mod_cast hneg
    have hL : ((req.chunk_length_minutes : ℚ) * 60) < 0 :=
      mul_neg_of_neg_of_pos hmq (by norm_num)
    rw [split_audio_eq req env D hprobe hL.ne]
    exact splitLoop_result_cases req env _ D _ _ 0
  · intro hneg D hprobe hD hDL
    have hmq : ((req.chunk_length_minutes : ℤ) : ℚ) < 0 := by exact_mod_cast hneg
    have hL : ((req.chunk_length_minutes : ℚ) * 60) < 0 :=
      mul_neg_of_neg_of_pos hmq (by norm_num)
    have hdiv : D / ((req.chunk_length_minutes : ℚ) * 60) ≤ -1 := by
      rw [div_le_iff_of_neg hL]
      linarith
    have hdivneg : ¬ (0 ≤ D / ((req.chunk_length_minutes : ℚ) * 60)) := by linarith
    have hNC : numChunks D ((req.chunk_length_minutes : ℚ) * 60) ≤ 0 := by
      unfold numChunks pyInt
      rw [if_neg hdivneg]
      have hceil : ⌈D / ((req.chunk_length_minutes : ℚ) * 60)⌉ ≤ -1 :=
        Int.ceil_le.mpr (by push_cast; linarith)
      omega
    have hN0 : (numChunks D ((req.chunk_length_minutes : ℚ) * 60)).toNat = 0 := by omega
    rw [split_audio_eq req env D hprobe hL.ne, hN0]
    simp [splitLoop]

/-- Witness for C2's amended theorem at two concrete chunk lengths: with `0`
minutes the probe is still issued first and the run ends in the division
error; with `-1` minutes and a 100 second duration the run is not rejected at
all - it returns the success value having issued only the probe. -/
theorem C2_no_early_validation_witness :
    (split_audio { input_file := "song.wav", chunk_length_minutes := 0 }
        { probe := .output (some 100), transcodeOk := fun _ => true,
          cancel := none, hasCallback := true }).2.head?
      = some (Effect.probeCall (probeCmd "song.wav")) ∧
    (split_audio { input_file := "song.wav", chunk_length_minutes := 0 }
        { probe := .output (some 100), transcodeOk := fun _ => true,
          cancel := none, hasCallback := true }).1 = SplitResult.zeroDivError ∧
    split_audio { input_file := "song.wav", chunk_length_minutes := -1 }
        { probe := .output (some 100), transcodeOk := fun _ => true,
          cancel := none, hasCallback := true }
      = (SplitResult.ok true, [Effect.probeCall (probeCmd "song.wav")]) :=
  ⟨(C2_no_early_validation _ _).1, (C2_no_early_validation _ _).2.1 rfl 100 rfl,
    (C2_no_early_validation { input_file := "song.wav", chunk_length_minutes := -1 }
        { probe := .output (some 100), transcodeOk := fun _ => true,
          cancel := none, hasCallback := true }).2.2.2
      (by norm_num) 100 rfl (by norm_num) (by norm_num)⟩

/-- C2 counterexample: the claim says a request with chunk length `≤ 0` fails
with `InvalidRequestError` before any external call, but the run with chunk
length `0` consists of exactly the ffprobe call - the probe IS attempted -
and then fails with a division-by-zero error, not a request-validation
error. -/
theorem C2_counterexample :
    split_audio { input_file := "song.wav", chunk_length_minutes := 0 }
        { probe := .output (some 100), transcodeOk := fun _ => true,
          cancel := none, hasCallback := true }
      = (SplitResult.zeroDivError, [Effect.probeCall (probeCmd "song.wav")]) := by
  have hz : ((((0 : ℤ) : ℚ)) * 60) = 0 := by norm_num
  simp [split_audio, probeDuration, hz]

/-- C6 (amended): every ffmpeg invocation carries the input path, the exact
absolute start and end offsets of its window (via `-ss`/`-to`, full
precision), the `speechnorm` loudness filter exactly when `normalize` is set -
but the codec argument is the literal `libmp3lame` (the MP3 encoder)
regardless of the request's output format; on a full run the issued commands
are exactly those of windows `0..N-1` in order. -/
theorem C6_transcode_arguments (req : SplitRequest) (env : Env) (D L : ℚ) (N : Nat)
    (hLdef : L = (req.chunk_length_minutes : ℚ) * 60)
    (hNdef : N = (numChunks D L).toNat)
    (hprobe : env.probe = .output (some D))
    (hm : 1 ≤ req.chunk_length_minutes)
    (hcan : env.cancel = none)
    (hok : ∀ j, env.transcodeOk j = true) :
    (∀ start stop : ℚ, ∀ out : String, ffmpegCmd req start stop out
        = [Arg.s "ffmpeg", Arg.s "-y", Arg.s "-i", Arg.s req.input_file,
            Arg.s "-ss", Arg.q start, Arg.s "-to", Arg.q stop]
          ++ (if req.normalize
              then [Arg.s "-filter:a", Arg.s "speechnorm=e=12.5:r=0.0001:l=1"] else [])
          ++ [Arg.s "-c:a", Arg.s "libmp3lame", Arg.s out]) ∧
    transcodeCmds (split_audio req env).2
      = (List.range N).map
          (fun i => ffmpegCmd req (windowStart L i) (windowEnd L D i) (outputPath req i)) := by
  have hL : 0 < L := by
    have h1 : (1 : ℚ) ≤ (req.chunk_length_minutes : ℚ) := by exact_mod_cast hm
    rw [hLdef]
    linarith
  rw [hLdef] at hNdef
  refine ⟨fun _ _ _ => rfl, ?_⟩
  rw [split_audio_eq req env D hprobe (hLdef ▸ hL.ne'), ← hNdef,
    splitLoop_run_ok req env _ D N hcan N 0 (fun t _ => hok (0 + t)),
    transcodeCmds_probe_cons]
  have hmz : (List.range N).map
        (fun t => windowTrace req env ((req.chunk_length_minutes : ℚ) * 60) D N (0 + t))
      = (List.range N).map (fun t => windowTrace req env ((req.chunk_length_minutes : ℚ) * 60) D N t) := by
    apply List.map_congr_left
    intro t _
    rw [Nat.zero_add]
  rw [hmz, transcodeCmds_flatten, hLdef]

/-- Witness for C6's amended theorem: a normalized run over a 25 minute file
with 10 minute chunks issues exactly three ffmpeg calls. -/
theorem C6_transcode_arguments_witness :
    ffmpegCmd { input_file := "song.wav", chunk_length_minutes := 10, normalize := true } 0 600 "001_song.mp3"
      = [Arg.s "ffmpeg", Arg.s "-y", Arg.s "-i", Arg.s "song.wav",
          Arg.s "-ss", Arg.q 0, Arg.s "-to", Arg.q 600]
        ++ [Arg.s "-filter:a", Arg.s "speechnorm=e=12.5:r=0.0001:l=1"]
        ++ [Arg.s "-c:a", Arg.s "libmp3lame", Arg.s "001_song.mp3"] ∧
    (transcodeCmds (split_audio { input_file := "song.wav", chunk_length_minutes := 10, normalize := true }
        { probe := .output (some 1500), transcodeOk := fun _ => true,
          cancel := none, hasCallback := true }).2).length = 3 := by
  have hN : (3 : ℕ) = (numChunks 1500 ((((10 : ℤ) : ℚ)) * 60)).toNat := by
    have h1 : numChunks 1500 ((((10 : ℤ) : ℚ)) * 60) = 3 := by
      have h2 : ((((10 : ℤ) : ℚ)) * 60) = 600 := by norm_num
      rw [h2, numChunks_eq (by norm_num) (by norm_num)]
      norm_num [Int.floor_eq_iff]
    rw [h1]
    decide
  have h := C6_transcode_arguments
    { input_file := "song.wav", chunk_length_minutes := 10, normalize := true }
    { probe := .output (some 1500), transcodeOk := fun _ => true,
      cancel := none, hasCallback := true } 1500 ((((10 : ℤ) : ℚ)) * 60) 3
    rfl hN rfl (by norm_num) rfl (fun _ => rfl)
  refine ⟨?_, ?_⟩
  · have := h.1 0 600 "001_song.mp3"
    simpa using this
  · rw [h.2]
    simp

/-- C6 counterexample: the claim says the codec corresponds to the request's
output format, but the ffmpeg command does not depend on the output format at
all (only the separately computed output filename does): a request for `"wav"`
output produces exactly the same command - with codec argument `"libmp3lame"`,
the MP3 encoder - as the same request for `"mp3"` output. -/
theorem C6_counterexample :
    ({ input_file := "song.wav", chunk_length_minutes := 10, output_format := "wav" } : SplitRequest).output_format
      ≠ ({ input_file := "song.wav", chunk_length_minutes := 10 } : SplitRequest).output_format ∧
    ffmpegCmd { input_file := "song.wav", chunk_length_minutes := 10, output_format := "wav" } 0 600 "out"
      = ffmpegCmd { input_file := "song.wav", chunk_length_minutes := 10 } 0 600 "out" ∧
    argAfter "-c:a" (ffmpegCmd { input_file := "song.wav", chunk_length_minutes := 10, output_format := "wav" } 0 600 "out")
      = some (Arg.s "libmp3lame") := by
  refine ⟨?_, rfl, ?_⟩
  · decide
  · simp [ffmpegCmd, argAfter]

/-- C7 (amended): the output filename is exactly the window index plus one
zero-padded to three digits, an underscore, the input's basename without its
extension, a dot, and the output format (`"song.wav"`/`"mp3"` give
`"001_song.mp3"` at index 0 and `"010_song.mp3"` at index 9); it is joined
under the configured output folder when one is given (and non-empty, since an
empty string is falsy in Python) and used relative to the current working
directory otherwise - but the operation never creates the output folder: its
effect trace contains no directory-creation effect. -/
theorem C7_output_naming (req : SplitRequest) (env : Env) (i : Nat) :
    outputFilename req i
      = pad3 (i + 1) ++ "_" ++ splitextRoot (basename req.input_file) ++ "." ++ req.output_format ∧
    (∀ f, req.output_folder = some f → f ≠ "" →
      outputPath req i = pyJoin f (outputFilename req i)) ∧
    (req.output_folder = none → outputPath req i = outputFilename req i) ∧
    outputFilename { input_file := "song.wav", chunk_length_minutes := 10 } 0 = "001_song.mp3" ∧
    outputFilename { input_file := "song.wav", chunk_length_minutes := 10 } 9 = "010_song.mp3" ∧
    dirEffects (split_audio req env).2 = [] := by
  refine ⟨rfl, ?_, ?_, ?_, ?_, (split_audio_no_fs req env).2⟩
  · intro f hf hne
    simp [outputPath, hf, hne]
  · intro hf
    simp [outputPath, hf]
  · decide
  · decide

/-- Witness for C7's amended theorem: a run with output folder `"outdir"`
places the file at `"outdir/001_song.mp3"` and creates no directory. -/
theorem C7_output_naming_witness :
    outputPath { input_file := "song.wav", chunk_length_minutes := 10, output_folder := some "outdir" } 0
      = pyJoin "outdir" (outputFilename { input_file := "song.wav", chunk_length_minutes := 10, output_folder := some "outdir" } 0) ∧
    dirEffects (split_audio { input_file := "song.wav", chunk_length_minutes := 10, output_folder := some "outdir" }
      { probe := .output (some 90), transcodeOk := fun _ => true,
        cancel := none, hasCallback := true }).2 = [] :=
  ⟨(C7_output_naming { input_file := "song.wav", chunk_length_minutes := 10, output_folder := some "outdir" }
      { probe := .output (some 90), transcodeOk := fun _ => true,
        cancel := none, hasCallback := true } 0).2.1 "outdir" rfl (by decide),
    (C7_output_naming { input_file := "song.wav", chunk_length_minutes := 10, output_folder := some "outdir" }
      { probe := .output (some 90), transcodeOk := fun _ => true,
        cancel := none, hasCallback := true } 0).2.2.2.2.2⟩

/-- C7 counterexample: the claim says the configured output folder is created
if necessary, but a successful run with a configured output folder performs
no directory-creation effect whatsoever - the source contains no folder
creation, so a missing folder is simply never created. -/
theorem C7_counterexample :
    ({ input_file := "song.wav", chunk_length_minutes := 10, output_folder := some "outdir" } : SplitRequest).output_folder = some "outdir" ∧
    (split_audio { input_file := "song.wav", chunk_length_minutes := 10, output_folder := some "outdir" }
      { probe := .output (some 90), transcodeOk := fun _ => true,
        cancel := none, hasCallback := true }).1 = SplitResult.ok true ∧
    dirEffects (split_audio { input_file := "song.wav", chunk_length_minutes := 10, output_folder := some "outdir" }
      { probe := .output (some 90), transcodeOk := fun _ => true,
        cancel := none, hasCallback := true }).2 = [] := by
  refine ⟨rfl, ?_, (split_audio_no_fs _ _).2⟩
  rw [split_audio_eq _ _ 90 rfl (by norm_num),
    splitLoop_run_ok _ _ _ 90 _ rfl _ 0 (fun _ _ => rfl)]

/-- C8 (amended): the duration probe fails exactly when the external call
fails or its output does not parse as a decimal number at all; output that
parses as a *negative* number is NOT rejected - the parsed value, whatever
its sign, is returned as the total duration. The spec-modelled probe
(`probeDurationSpec`, which also rejects negatives) agrees with the code
exactly on the non-negative parses. -/
theorem C8_probe_contract :
    probeDuration ProbeOutcome.callFailed = .error .callFailed ∧
    probeDuration (.output none) = .error .parseFailed ∧
    (∀ d : ℚ, probeDuration (.output (some d)) = .ok d) ∧
    (∀ d : ℚ, d < 0 → probeDuration (.output (some d)) = .ok d
      ∧ probeDurationSpec (.output (some d)) = .error .parseFailed) ∧
    (∀ d : ℚ, 0 ≤ d → probeDurationSpec (.output (some d)) = probeDuration (.output (some d))) := by
  refine ⟨rfl, rfl, fun d => rfl, fun d hd => ⟨rfl, ?_⟩, fun d hd => ?_⟩
  · simp [probeDurationSpec, hd]
  · simp [probeDurationSpec, probeDuration, not_lt.mpr hd]

/-- Witness for C8's amended theorem at the parse value `-5`: the code's probe
returns `-5` as the duration while the spec's probe rejects it. -/
theorem C8_probe_contract_witness :
    probeDuration (.output (some (-5))) = .ok (-5) ∧
    probeDurationSpec (.output (some (-5))) = .error .parseFailed :=
  C8_probe_contract.2.2.2.1 (-5) (by norm_num)

/-- C8 counterexample: the claim says output parsing as a negative number is
rejected with `ProbeError`, but the probe accepts `-5` and the whole split
operation then runs to a successful completion on the negative duration, with
no probe error at all. -/
theorem C8_counterexample :
    probeDuration (.output (some (-5))) = Except.ok (-5) ∧
    (split_audio { input_file := "song.wav", chunk_length_minutes := 10 }
        { probe := .output (some (-5)), transcodeOk := fun _ => true,
          cancel := none, hasCallback := true }).1 = SplitResult.ok true := by
  refine ⟨rfl, ?_⟩
  rw [split_audio_eq _ _ (-5) rfl (by norm_num),
    splitLoop_run_ok _ _ _ (-5) _ rfl _ 0 (fun _ _ => rfl)]

end AudioSplitter
